import Mathlib

/-!
Verification development for the Matchbook CLOB engine, indexer and
aggregator.  The definitions below are shallow embeddings of the Rust
sources: machine integers become `Nat` with explicit wrap/saturation
where the source saturates or checks, byte buffers become `List Nat`
of little-endian bytes, and fallible code returns `Except`/`Option`.
-/

/-! ### Machine-integer helpers -/

/-- `u32::MAX`, used as the null node pointer (`SENTINEL` in `state/orderbook.rs`). -/
def SENTINEL : Nat := 4294967295

/-- `u8::saturating_add`. -/
def u8SatAdd (a b : Nat) : Nat := min (a + b) 255

/-- `u32::saturating_add`. -/
def u32SatAdd (a b : Nat) : Nat := min (a + b) (2 ^ 32 - 1)

/-- `u64::saturating_add`. -/
def u64SatAdd (a b : Nat) : Nat := min (a + b) (2 ^ 64 - 1)

/-- `u64::checked_mul`. -/
def checkedMul64 (a b : Nat) : Option Nat :=
  if a * b < 2 ^ 64 then some (a * b) else none

/-- `u64::checked_add`. -/
def checkedAdd64 (a b : Nat) : Option Nat :=
  if a + b < 2 ^ 64 then some (a + b) else none

/-- `u64::checked_div` (fails only on division by zero). -/
def checkedDiv (a b : Nat) : Option Nat :=
  if b = 0 then none else some (a / b)

/-- `u64::checked_sub`. -/
def checkedSub (a b : Nat) : Option Nat :=
  if b ≤ a then some (a - b) else none

/-- Bitwise complement of a `u64` value (`!price` in `OrderId::new_bid`). -/
def u64Not (p : Nat) : Nat := 2 ^ 64 - 1 - p

/-! ### Little-endian byte buffers

Account data is a `&[u8]` in the source; here a `List Nat` of bytes. -/

/-- Little-endian bytes of `n`, `len` bytes (`to_le_bytes`). -/
def natLE : Nat → Nat → List Nat
  | _, 0 => []
  | n, k + 1 => n % 256 :: natLE (n / 256) k

/-- Value of a little-endian byte list (`from_le_bytes`). -/
def leNat (bs : List Nat) : Nat := bs.foldr (fun b acc => b + 256 * acc) 0

/-- Read `len` bytes starting at `off` (a checked slice `data[off..off+len]`). -/
def readBytes (data : List Nat) (off len : Nat) : List Nat :=
  (data.drop off).take len

/-- `u32::from_le_bytes(data[off..off+4])`. -/
def readU32 (data : List Nat) (off : Nat) : Nat := leNat (readBytes data off 4)

/-- `u64::from_le_bytes(data[off..off+8])`. -/
def readU64 (data : List Nat) (off : Nat) : Nat := leNat (readBytes data off 8)

/-- `u128::from_le_bytes(data[off..off+16])`. -/
def readU128 (data : List Nat) (off : Nat) : Nat := leNat (readBytes data off 16)

/-- `data[off..off+bs.len()].copy_from_slice(bs)`. -/
def writeBytes (data : List Nat) (off : Nat) (bs : List Nat) : List Nat :=
  data.take off ++ bs ++ data.drop (off + bs.length)

/-! ### Core enums (`state/event_queue.rs`, `state/orderbook.rs`, `state/market.rs`) -/

/-- Side of an order (`Side` in `state/event_queue.rs`). -/
inductive Side where
  | bid
  | ask
deriving DecidableEq, Repr

/-- `Side::is_bid`. -/
def Side.isBid : Side → Bool
  | .bid => true
  | .ask => false

/-- `Side` as its `u8` representation. -/
def sideToNat : Side → Nat
  | .bid => 0
  | .ask => 1

/-- `OrderType` in `instructions/place_order.rs`. -/
inductive OrderType where
  | limit
  | immediateOrCancel
  | postOnly
  | fillOrKill
deriving DecidableEq, Repr

/-- `OrderType::is_post_only`. -/
def OrderType.isPostOnly : OrderType → Bool
  | .postOnly => true
  | _ => false

/-- `TimeInForce` in `state/orderbook.rs`. -/
inductive TimeInForce where
  | goodTilCancelled
  | immediateOrCancel
  | fillOrKill
  | postOnly
deriving DecidableEq, Repr

/-- `OrderType::to_time_in_force`. -/
def OrderType.toTimeInForce : OrderType → TimeInForce
  | .limit => .goodTilCancelled
  | .immediateOrCancel => .immediateOrCancel
  | .postOnly => .postOnly
  | .fillOrKill => .fillOrKill

/-- `TimeInForce` as its `u8` representation. -/
def tifToNat : TimeInForce → Nat
  | .goodTilCancelled => 0
  | .immediateOrCancel => 1
  | .fillOrKill => 2
  | .postOnly => 3

/-- `OutReason` in `state/event_queue.rs`. -/
inductive OutReason where
  | cancelled
  | filled
  | expired
deriving DecidableEq, Repr

/-- `OutReason` as its `u8` representation. -/
def outReasonToNat : OutReason → Nat
  | .cancelled => 0
  | .filled => 1
  | .expired => 2

/-- `MarketStatus` in `state/market.rs`. -/
inductive MarketStatus where
  | active
  | paused
  | closed
deriving DecidableEq, Repr

/-- `MarketStatus::allows_cancellations`. -/
def MarketStatus.allowsCancellations : MarketStatus → Bool
  | .active => true
  | .paused => true
  | .closed => false

/-- The `MatchbookError` variants the embedded handlers mention. -/
inductive MErr where
  | invalidPrice
  | invalidTickSize
  | invalidQuantity
  | orderTooSmall
  | invalidClientOrderId
  | marketNotActive
  | marketClosed
  | unauthorized
  | insufficientFunds
  | tooManyOrders
  | arithmeticOverflow
  | postOnlyWouldCross
  | fillOrKillCannotFill
  | orderNotFound
  | eventQueueFull
  | invalidAccountData
deriving DecidableEq, Repr

/-- Extract the error of an `Except` result, if any. -/
def errOf {α : Type} (r : Except MErr α) : Option MErr :=
  match r with
  | .error e => some e
  | .ok _ => none

/-! ### OrderId codec (`state/orderbook.rs`) -/

/-- `OrderId::new_bid`: `((!price as u128) << 64) | seq_num`. -/
def OrderId.newBid (price seqNum : Nat) : Nat :=
  (u64Not price <<< 64) ||| seqNum

/-- `OrderId::new_ask`: `((price as u128) << 64) | seq_num`. -/
def OrderId.newAsk (price seqNum : Nat) : Nat :=
  (price <<< 64) ||| seqNum

/-- `OrderId::price`: upper 64 bits, complemented again for bids. -/
def OrderId.price (id : Nat) (isBid : Bool) : Nat :=
  let raw := (id >>> 64) % 2 ^ 64
  if isBid then u64Not raw else raw

/-- `OrderId::seq_num`: the low 64 bits (`self.0 as u64`). -/
def OrderId.seqNum (id : Nat) : Nat := id % 2 ^ 64

/-- The order id the place-order handler builds for a side. -/
def mkOrderId (side : Side) (price seqNum : Nat) : Nat :=
  match side with
  | .bid => OrderId.newBid price seqNum
  | .ask => OrderId.newAsk price seqNum

/-! ### Lock and release amounts
(`PlaceOrderParams::calculate_lock_amount` in `instructions/place_order.rs`,
release computation in `instructions/cancel_order.rs` lines 100-121). -/

/-- `PlaceOrderParams` in `instructions/place_order.rs`. -/
structure PlaceOrderParams where
  side : Side
  price : Nat
  quantity : Nat
  orderType : OrderType
  clientOrderId : Nat
deriving DecidableEq, Repr

/-- `PlaceOrderParams::validate`. -/
def PlaceOrderParams.validate (p : PlaceOrderParams) (tickSize minOrderSize : Nat) :
    Except MErr Unit :=
  if ¬ p.price > 0 then .error .invalidPrice
  else if ¬ p.price % tickSize = 0 then .error .invalidTickSize
  else if ¬ p.quantity > 0 then .error .invalidQuantity
  else if ¬ p.quantity ≥ minOrderSize then .error .orderTooSmall
  else .ok ()

/-- `PlaceOrderParams::calculate_lock_amount`: asks lock
`quantity * base_lot_size` base, bids lock
`quantity * price * quote_lot_size / base_lot_size` quote (checked). -/
def PlaceOrderParams.calculateLockAmount (p : PlaceOrderParams)
    (baseLotSize quoteLotSize : Nat) : Except MErr Nat :=
  match p.side with
  | .ask =>
    match checkedMul64 p.quantity baseLotSize with
    | some v => .ok v
    | none => .error .arithmeticOverflow
  | .bid =>
    match checkedMul64 p.quantity p.price with
    | none => .error .arithmeticOverflow
    | some n1 =>
      match checkedMul64 n1 quoteLotSize with
      | none => .error .arithmeticOverflow
      | some n2 =>
        match checkedDiv n2 baseLotSize with
        | none => .error .arithmeticOverflow
        | some v => .ok v

/-- Release amounts `(base_released, quote_released)` computed by the
cancel-order handler from the removed leaf (checked arithmetic). -/
def cancelReleaseAmounts (side : Side) (quantity price baseLotSize quoteLotSize : Nat) :
    Except MErr (Nat × Nat) :=
  match side with
  | .ask =>
    match checkedMul64 quantity baseLotSize with
    | some v => .ok (v, 0)
    | none => .error .arithmeticOverflow
  | .bid =>
    match checkedMul64 quantity price with
    | none => .error .arithmeticOverflow
    | some n1 =>
      match checkedMul64 n1 quoteLotSize with
      | none => .error .arithmeticOverflow
      | some n2 =>
        match checkedDiv n2 baseLotSize with
        | none => .error .arithmeticOverflow
        | some v => .ok (0, v)

/-! ### Event queue ring buffer (`state/event_queue.rs`) -/

/-- `FillEvent` in `state/event_queue.rs` (pubkeys as `Nat`). -/
structure FillEv where
  takerSide : Side
  maker : Nat
  makerOrderId : Nat
  makerClientOrderId : Nat
  taker : Nat
  takerOrderId : Nat
  takerClientOrderId : Nat
  price : Nat
  quantity : Nat
  takerFee : Nat
  makerRebate : Nat
deriving DecidableEq, Repr

/-- `OutEvent` in `state/event_queue.rs` (pubkeys as `Nat`). -/
structure OutEv where
  side : Side
  owner : Nat
  orderId : Nat
  clientOrderId : Nat
  baseReleased : Nat
  quoteReleased : Nat
  reason : OutReason
deriving DecidableEq, Repr

/-- The tagged `Event` enum in `state/event_queue.rs`. -/
inductive QEvent where
  | empty
  | fill (f : FillEv)
  | out (o : OutEv)
deriving DecidableEq, Repr

/-- `EventQueueHeader` plus its event array: `{head, count, seq_num}` with
the events slice (`capacity = events.len()`). -/
structure EventQueueState where
  head : Nat
  count : Nat
  seqNum : Nat
  events : List QEvent
deriving DecidableEq, Repr

/-- `EventQueueHeader::push`: `None` and no change when full, else store at
`(head + count) % capacity`, increment `count` and `seq_num` (saturating)
and return the new `seq_num`. -/
def eqPush (q : EventQueueState) (e : QEvent) : Option Nat × EventQueueState :=
  let capacity := q.events.length
  if q.count ≥ capacity then (none, q)
  else
    let tail := (q.head + q.count) % capacity
    let seqNum2 := u64SatAdd q.seqNum 1
    (some seqNum2,
      { q with
        events := q.events.set tail e
        count := u32SatAdd q.count 1
        seqNum := seqNum2 })

/-- `EventQueueHeader::pop`: `None` when empty, else return the head slot,
zero it (`Event::Empty`), advance `head` modulo capacity (cast back to
`u32`) and decrement `count`. -/
def eqPop (q : EventQueueState) : Option QEvent × EventQueueState :=
  if q.count = 0 then (none, q)
  else
    let capacity := q.events.length
    let e := q.events.getD q.head QEvent.empty
    (some e,
      { q with
        events := q.events.set q.head QEvent.empty
        head := ((q.head + 1) % capacity) % 2 ^ 32
        count := q.count - 1 })

/-- The live window of the ring buffer:
`events[(head + i) mod capacity]` for `i in 0..count`. -/
def liveEvents (q : EventQueueState) : List QEvent :=
  (List.range q.count).map
    (fun i => q.events.getD ((q.head + i) % q.events.length) QEvent.empty)

/-- Well-formedness of the queue header: `head` in range, `count ≤ capacity`,
the capacity fits the source `u32` arithmetic, and `seq_num` fits a `u64`. -/
def eqWF (q : EventQueueState) : Prop :=
  q.head < q.events.length ∧ q.count ≤ q.events.length ∧
    q.events.length < 2 ^ 32 ∧ q.seqNum < 2 ^ 64

/-! ### Indexer parser (`indexer/src/parser/mod.rs`) -/

/-- `ParsedOrder` in `indexer/src/parser/types.rs` (owner kept as raw bytes). -/
structure ParsedOrder where
  orderId : Nat
  owner : List Nat
  price : Nat
  quantity : Nat
  clientOrderId : Nat
deriving DecidableEq, Repr

/-- `AccountParser::parse_leaf_node`: accepts an 88-byte leaf-tagged node and
reads `order_id` at 8, `owner` at 24, `quantity` at 56, `client_order_id` at
64; `price` is the raw upper 64 bits of `order_id` (`(order_id >> 64) as u64`)
for both sides. -/
def parseLeafNode (data : List Nat) : Option ParsedOrder :=
  if data.length < 88 then none
  else if data.getD 0 0 ≠ 2 then none
  else
    let orderId := readU128 data 8
    let owner := readBytes data 24 32
    let quantity := readU64 data 56
    let clientOrderId := readU64 data 64
    let price := (orderId >>> 64) % 2 ^ 64
    some ⟨orderId, owner, price, quantity, clientOrderId⟩

/-- `LeafNode` in `state/orderbook.rs` (pubkey as `Nat`). -/
structure LeafNode where
  ownerSlot : Nat
  timeInForce : TimeInForce
  key : Nat
  owner : Nat
  quantity : Nat
  clientOrderId : Nat
deriving DecidableEq, Repr

/-- The 88-byte on-chain image of a leaf node with zeroed padding:
`tag(1) + owner_slot(1) + tif(1) + padding(5) + key(16) + owner(32) +
quantity(8) + client_order_id(8) + padding(16)` (the layout written by
`insert_order` in `instructions/place_order.rs` and read by the indexer). -/
def leafNodeBytes (leaf : LeafNode) : List Nat :=
  [2, leaf.ownerSlot, tifToNat leaf.timeInForce, 0, 0, 0, 0, 0]
    ++ natLE leaf.key 16 ++ natLE leaf.owner 32 ++ natLE leaf.quantity 8
    ++ natLE leaf.clientOrderId 8 ++ List.replicate 16 0

/-! ### Book aggregator (`indexer/src/book/orderbook.rs`, `indexer/src/book/types.rs`) -/

/-- `PriceLevel` in `indexer/src/book/types.rs`. -/
structure PriceLevel where
  price : Nat
  quantity : Nat
  orderCount : Nat
deriving DecidableEq, Repr

/-- `BookChange` in `indexer/src/book/types.rs`. -/
structure BookChange where
  side : Side
  price : Nat
  newQuantity : Nat
  orderCount : Nat
deriving DecidableEq, Repr

/-- `FullOrderBook`: per-side `BTreeMap<u64, PriceLevel>` modelled as an
ascending association list. -/
structure FullOrderBook where
  market : List Nat
  bids : List (Nat × PriceLevel)
  asks : List (Nat × PriceLevel)
  lastSlot : Nat
  seq : Nat
deriving DecidableEq, Repr

/-- One step of the level-building loop in `FullOrderBook::apply_orders`:
`entry(price).or_insert(default)` then saturating accumulation, on a
key-sorted association list. -/
def insertLevelEntry (m : List (Nat × PriceLevel)) (o : ParsedOrder) :
    List (Nat × PriceLevel) :=
  match m with
  | [] => [(o.price, ⟨o.price, u64SatAdd 0 o.quantity, u32SatAdd 0 1⟩)]
  | (k, l) :: rest =>
    if o.price < k then
      (o.price, ⟨o.price, u64SatAdd 0 o.quantity, u32SatAdd 0 1⟩) :: (k, l) :: rest
    else if o.price = k then
      (k, ⟨l.price, u64SatAdd l.quantity o.quantity, u32SatAdd l.orderCount 1⟩) :: rest
    else
      (k, l) :: insertLevelEntry rest o

/-- The `new_levels` map built from the replacement order set. -/
def buildLevels (orders : List ParsedOrder) : List (Nat × PriceLevel) :=
  orders.foldl insertLevelEntry []

/-- `BTreeMap::get`. -/
def lookupLevel : List (Nat × PriceLevel) → Nat → Option PriceLevel
  | [], _ => none
  | (k, l) :: rest, p => if k = p then some l else lookupLevel rest p

/-- `BTreeMap::contains_key`. -/
def containsKeyLevel (m : List (Nat × PriceLevel)) (p : Nat) : Bool :=
  (lookupLevel m p).isSome

/-- First delta loop of `apply_orders`: removed and modified levels. -/
def diffOldLevels (side : Side) (new : List (Nat × PriceLevel)) :
    List (Nat × PriceLevel) → List BookChange
  | [] => []
  | (p, ol) :: rest =>
    (match lookupLevel new p with
     | some nl =>
       if ol.quantity ≠ nl.quantity ∨ ol.orderCount ≠ nl.orderCount then
         [⟨side, p, nl.quantity, nl.orderCount⟩]
       else []
     | none => [⟨side, p, 0, 0⟩]) ++ diffOldLevels side new rest

/-- Second delta loop of `apply_orders`: added levels. -/
def diffNewLevels (side : Side) (old : List (Nat × PriceLevel)) :
    List (Nat × PriceLevel) → List BookChange
  | [] => []
  | (p, nl) :: rest =>
    (if containsKeyLevel old p then []
     else [⟨side, p, nl.quantity, nl.orderCount⟩]) ++ diffNewLevels side old rest

/-- `FullOrderBook::apply_orders`: rebuild one side from the replacement
order set, emit the delta against the prior aggregation, update `last_slot`
and increment `seq`. -/
def applyOrders (b : FullOrderBook) (side : Side) (orders : List ParsedOrder)
    (slot : Nat) : List BookChange × FullOrderBook :=
  let newLevels := buildLevels orders
  let oldLevels := match side with | .bid => b.bids | .ask => b.asks
  let changes :=
    diffOldLevels side newLevels oldLevels ++ diffNewLevels side oldLevels newLevels
  (changes,
    { b with
      bids := (match side with | .bid => newLevels | .ask => b.bids)
      asks := (match side with | .ask => newLevels | .bid => b.asks)
      lastSlot := slot
      seq := u64SatAdd b.seq 1 })

/-! ### Withdraw (`instructions/withdraw.rs`) -/

/-- `WithdrawParams`. -/
structure WithdrawParams where
  baseAmount : Nat
  quoteAmount : Nat
deriving DecidableEq, Repr

/-- The `OpenOrders` free balances the withdraw handler touches. -/
structure WState where
  baseFree : Nat
  quoteFree : Nat
deriving DecidableEq, Repr

/-- The withdraw handler as written: validate, then for each leg check the
free balance, transfer from the vault, and debit via `checked_sub`.  The
returned state carries the mutations performed before any error, as the
handler mutates the account in place. -/
def withdrawHandlerRaw (p : WithdrawParams) (st : WState) : Option MErr × WState :=
  if p.baseAmount = 0 ∧ p.quoteAmount = 0 then (some .invalidQuantity, st)
  else
    let res1 : Option MErr × WState :=
      if p.baseAmount > 0 then
        if st.baseFree < p.baseAmount then (some .insufficientFunds, st)
        else
          match checkedSub st.baseFree p.baseAmount with
          | some b => (none, { st with baseFree := b })
          | none => (some .insufficientFunds, st)
      else (none, st)
    match res1 with
    | (some e, st1) => (some e, st1)
    | (none, st1) =>
      if p.quoteAmount > 0 then
        if st1.quoteFree < p.quoteAmount then (some .insufficientFunds, st1)
        else
          match checkedSub st1.quoteFree p.quoteAmount with
          | some v => (none, { st1 with quoteFree := v })
          | none => (some .insufficientFunds, st1)
      else (none, st1)

/-- Modelled from the spec: the runtime that hosts the handlers is not part
of the sources; per the spec an instruction "either commits wholly or
returns an error and makes no changes visible", so on error every account
mutation of the raw handler is discarded. -/
def withdrawInstructionAtomic (p : WithdrawParams) (st : WState) :
    Option MErr × WState :=
  match withdrawHandlerRaw p st with
  | (some e, _) => (some e, st)
  | (none, st2) => (none, st2)

/-! ### OpenOrders (`state/open_orders.rs`) -/

/-- `MAX_ORDERS`. -/
def MAX_ORDERS : Nat := 128

/-- `OrderSlot` (empty when `order_id = 0`). -/
structure OrderSlot where
  orderId : Nat
  clientOrderId : Nat
  side : Side
deriving DecidableEq, Repr

/-- `OrderSlot::is_empty`. -/
def OrderSlot.isEmpty (s : OrderSlot) : Bool := s.orderId == 0

/-- `OrderSlot::default` / `OrderSlot::clear`. -/
def OrderSlot.cleared : OrderSlot := ⟨0, 0, .bid⟩

/-- The `OpenOrders` account (pubkeys as `Nat`, `Pubkey::default()` as 0). -/
structure OpenOrders where
  owner : Nat
  delegate : Nat
  baseLocked : Nat
  quoteLocked : Nat
  baseFree : Nat
  quoteFree : Nat
  numOrders : Nat
  orders : List OrderSlot
deriving DecidableEq, Repr

/-- `OpenOrders::is_authorized`. -/
def OpenOrders.isAuthorized (oo : OpenOrders) (signer : Nat) : Bool :=
  signer == oo.owner || (oo.delegate != 0 && signer == oo.delegate)

/-- `OpenOrders::find_free_slot`. -/
def OpenOrders.findFreeSlot (oo : OpenOrders) : Option Nat :=
  oo.orders.findIdx? (fun s => s.isEmpty)

/-- `OpenOrders::add_order`. -/
def OpenOrders.addOrder (oo : OpenOrders) (slotIndex orderId clientOrderId : Nat)
    (side : Side) : Bool × OpenOrders :=
  if slotIndex ≥ MAX_ORDERS then (false, oo)
  else
    match oo.orders.get? slotIndex with
    | none => (false, oo)
    | some slot =>
      if ¬ slot.isEmpty then (false, oo)
      else
        (true,
          { oo with
            orders := oo.orders.set slotIndex ⟨orderId, clientOrderId, side⟩
            numOrders := u8SatAdd oo.numOrders 1 })

/-- `OpenOrders::remove_order`. -/
def OpenOrders.removeOrder (oo : OpenOrders) (slotIndex : Nat) :
    Option OrderSlot × OpenOrders :=
  if slotIndex ≥ MAX_ORDERS then (none, oo)
  else
    match oo.orders.get? slotIndex with
    | none => (none, oo)
    | some slot =>
      if slot.isEmpty then (none, oo)
      else
        (some slot,
          { oo with
            orders := oo.orders.set slotIndex OrderSlot.cleared
            numOrders := oo.numOrders - 1 })

/-- `OpenOrders::get_order`. -/
def OpenOrders.getOrder (oo : OpenOrders) (slotIndex : Nat) : Option OrderSlot :=
  oo.orders.get? slotIndex

/-- `OpenOrders::find_order`. -/
def OpenOrders.findOrder (oo : OpenOrders) (orderId : Nat) : Option Nat :=
  oo.orders.findIdx? (fun s => s.orderId == orderId)

/-- `OpenOrders::lock_base`. -/
def OpenOrders.lockBase (oo : OpenOrders) (amount : Nat) : Bool × OpenOrders :=
  if oo.baseFree < amount then (false, oo)
  else
    (true,
      { oo with
        baseFree := oo.baseFree - amount
        baseLocked := u64SatAdd oo.baseLocked amount })

/-- `OpenOrders::lock_quote`. -/
def OpenOrders.lockQuote (oo : OpenOrders) (amount : Nat) : Bool × OpenOrders :=
  if oo.quoteFree < amount then (false, oo)
  else
    (true,
      { oo with
        quoteFree := oo.quoteFree - amount
        quoteLocked := u64SatAdd oo.quoteLocked amount })

/-- `OpenOrders::release_base`. -/
def OpenOrders.releaseBase (oo : OpenOrders) (amount : Nat) : Bool × OpenOrders :=
  if oo.baseLocked < amount then (false, oo)
  else
    (true,
      { oo with
        baseLocked := oo.baseLocked - amount
        baseFree := u64SatAdd oo.baseFree amount })

/-- `OpenOrders::release_quote`. -/
def OpenOrders.releaseQuote (oo : OpenOrders) (amount : Nat) : Bool × OpenOrders :=
  if oo.quoteLocked < amount then (false, oo)
  else
    (true,
      { oo with
        quoteLocked := oo.quoteLocked - amount
        quoteFree := u64SatAdd oo.quoteFree amount })

/-! ### Market (`state/market.rs`) -/

/-- The `Market` fields the embedded handlers use. -/
structure Market where
  status : MarketStatus
  baseLotSize : Nat
  quoteLotSize : Nat
  tickSize : Nat
  minOrderSize : Nat
  seqNum : Nat
deriving DecidableEq, Repr

/-- `Market::is_active`. -/
def Market.isActive (m : Market) : Bool :=
  match m.status with
  | .active => true
  | _ => false

/-- `Market::next_seq_num`: `seq_num.checked_add(1)`, mutating on success. -/
def Market.nextSeqNum (m : Market) : Option Nat × Market :=
  if m.seqNum + 1 < 2 ^ 64 then
    (some (m.seqNum + 1), { m with seqNum := m.seqNum + 1 })
  else (none, m)

/-! ### Book side byte operations
(`insert_order`/`get_best_price` in `instructions/place_order.rs`,
`remove_order_from_book`/`push_out_event` in `instructions/cancel_order.rs`).
Header offsets: `leaf_count` at 56, `free_list_head` at 60, `root` at 64,
nodes at 136, node size 88. -/

/-- The leaf-node writes of `insert_order` (tag, owner slot, tif, key at +8,
owner at +24, quantity at +56, client order id at +64; padding untouched). -/
def writeLeafAt (data : List Nat) (off : Nat) (leaf : LeafNode) : List Nat :=
  let d1 := writeBytes data off [2]
  let d2 := writeBytes d1 (off + 1) [leaf.ownerSlot]
  let d3 := writeBytes d2 (off + 2) [tifToNat leaf.timeInForce]
  let d4 := writeBytes d3 (off + 8) (natLE leaf.key 16)
  let d5 := writeBytes d4 (off + 24) (natLE leaf.owner 32)
  let d6 := writeBytes d5 (off + 56) (natLE leaf.quantity 8)
  writeBytes d6 (off + 64) (natLE leaf.clientOrderId 8)

/-- `insert_order`: allocate a slot (free list head or append), write the
leaf, update root/leaf count.  The non-empty-tree branch writes the leaf
without linking it into the tree (the source's simplified insertion). -/
def insertOrder (data : List Nat) (leaf : LeafNode) : Except MErr (List Nat) :=
  if data.length < 60 then .error .invalidAccountData
  else
    let leafCount := readU32 data 56
    let freeListHead := readU32 data 60
    let root := readU32 data 64
    if root = SENTINEL then
      let newNodeIndex := if freeListHead ≠ SENTINEL then freeListHead else leafCount
      let nodeOffset := 136 + newNodeIndex * 88
      if data.length < nodeOffset + 88 then .error .invalidAccountData
      else
        let d1 := writeLeafAt data nodeOffset leaf
        let d2 := writeBytes d1 64 (natLE newNodeIndex 4)
        let d3 := writeBytes d2 56 (natLE (u32SatAdd leafCount 1) 4)
        .ok d3
    else
      let alloc : Nat × Nat × List Nat :=
        if freeListHead ≠ SENTINEL then
          let nextFree := readU32 data (136 + freeListHead * 88 + 1)
          (freeListHead, leafCount, writeBytes data 60 (natLE nextFree 4))
        else
          (leafCount, u32SatAdd leafCount 1, data)
      match alloc with
      | (idx, leafCount2, d1) =>
        let nodeOffset := 136 + idx * 88
        if d1.length < nodeOffset + 88 then .error .invalidAccountData
        else
          let d2 := writeLeafAt d1 nodeOffset leaf
          let d3 := writeBytes d2 56 (natLE leafCount2 4)
          .ok d3

/-- `get_best_price`: the source reads the root and then, in every reachable
branch, returns `None` ("return None to allow all orders" — unimplemented
tree traversal). -/
def getBestPrice (data : List Nat) (_isBids : Bool) : Option Nat :=
  if data.length < 8 + 128 then none
  else if data.length < 64 + 4 then none
  else
    let root := readU32 data 64
    if root = SENTINEL then none
    else none

/-- `check_would_cross`: bid crosses when `price ≥ best_ask`, ask crosses
when `price ≤ best_bid`. -/
def checkWouldCross (bids asks : List Nat) (side : Side) (price : Nat) : Bool :=
  match side with
  | .bid =>
    match getBestPrice asks false with
    | some askPrice => decide (price ≥ askPrice)
    | none => false
  | .ask =>
    match getBestPrice bids true with
    | some bidPrice => decide (price ≤ bidPrice)
    | none => false

/-- Linear leaf scan of `remove_order_from_book` (bounded by
`leaf_count * 2` nodes, stopping at the first out-of-bounds node). -/
def scanLeafAux (data : List Nat) (orderId : Nat) : Nat → Nat → Option (Nat × Nat)
  | _, 0 => none
  | i, k + 1 =>
    let nodeOffset := 136 + i * 88
    if data.length < nodeOffset + 88 then none
    else if data.getD nodeOffset 0 = 2 ∧ readU128 data (nodeOffset + 8) = orderId then
      some (i, readU64 data (nodeOffset + 56))
    else scanLeafAux data orderId (i + 1) k

/-- `remove_order_from_book`: find the leaf by linear scan, mark it free,
push it on the free list, decrement the leaf count, reset the root when the
count reaches zero; returns `(quantity, price)`. -/
def removeOrderFromBook (data : List Nat) (orderId : Nat) (side : Side) :
    Except MErr ((Nat × Nat) × List Nat) :=
  if data.length < 60 then .error .invalidAccountData
  else
    let leafCount := readU32 data 56
    let freeListHead := readU32 data 60
    let root := readU32 data 64
    if root = SENTINEL then .error .orderNotFound
    else
      match scanLeafAux data orderId 0 (leafCount * 2) with
      | none => .error .orderNotFound
      | some (idx, qty) =>
        let foundPrice := OrderId.price orderId side.isBid
        let nodeOffset := 136 + idx * 88
        let d1 := writeBytes data nodeOffset [3]
        let d2 := writeBytes d1 (nodeOffset + 1) (natLE freeListHead 4)
        let d3 := writeBytes d2 60 (natLE idx 4)
        let leafCount2 := leafCount - 1
        let d4 := writeBytes d3 56 (natLE leafCount2 4)
        let d5 := if leafCount2 = 0 then writeBytes d4 64 (natLE SENTINEL 4) else d4
        .ok ((qty, foundPrice), d5)

/-- `push_out_event`: event-queue header has `head` at 48, `count` at 52,
`seq_num` at 56, events at 128 with 160-byte slots; capacity is derived from
the remaining buffer length; full queue fails with `EventQueueFull`. -/
def pushOutEvent (data : List Nat) (ev : OutEv) : Except MErr (List Nat) :=
  if data.length < 8 + 120 then .error .invalidAccountData
  else
    let head := readU32 data 48
    let count := readU32 data 52
    let seqNum := readU64 data 56
    let capacity := (data.length - 128) / 160
    if capacity = 0 then .error .eventQueueFull
    else if count ≥ capacity then .error .eventQueueFull
    else
      let tail := (head + count) % capacity
      let eventOffset := 128 + tail * 160
      if data.length < eventOffset + 160 then .error .invalidAccountData
      else
        let outOffset := eventOffset + 1
        let d1 := writeBytes data eventOffset [2]
        let d2 := writeBytes d1 outOffset [sideToNat ev.side]
        let d3 := writeBytes d2 (outOffset + 1) (natLE ev.owner 32)
        let d4 := writeBytes d3 (outOffset + 33) (natLE ev.orderId 16)
        let d5 := writeBytes d4 (outOffset + 49) (natLE ev.clientOrderId 8)
        let d6 := writeBytes d5 (outOffset + 57) (natLE ev.baseReleased 8)
        let d7 := writeBytes d6 (outOffset + 65) (natLE ev.quoteReleased 8)
        let d8 := writeBytes d7 (outOffset + 73) [outReasonToNat ev.reason]
        let d9 := writeBytes d8 52 (natLE (u32SatAdd count 1) 4)
        let d10 := writeBytes d9 56 (natLE (u64SatAdd seqNum 1) 8)
        .ok d10

/-! ### Instruction handlers
(`instructions/place_order.rs`, `instructions/cancel_order.rs`,
`instructions/cancel_all_orders.rs`). -/

/-- The accounts the place-order handler touches. -/
structure PlaceState where
  market : Market
  openOrders : OpenOrders
  ooKey : Nat
  bids : List Nat
  asks : List Nat
deriving DecidableEq, Repr

/-- The place-order handler: validate market/authority/params, lock funds,
take a free slot and the next sequence number, run the PostOnly cross check,
record the order slot and insert the resting leaf.  There is no taker phase:
the handler never matches, never emits events, and touches no event queue. -/
def placeOrderHandler (signer : Nat) (params : PlaceOrderParams) (st : PlaceState) :
    Except MErr PlaceState :=
  if ¬ st.market.isActive then .error .marketNotActive
  else if ¬ st.openOrders.isAuthorized signer then .error .unauthorized
  else
    match params.validate st.market.tickSize st.market.minOrderSize with
    | .error e => .error e
    | .ok _ =>
      match params.calculateLockAmount st.market.baseLotSize st.market.quoteLotSize with
      | .error e => .error e
      | .ok lockAmount =>
        let lockres :=
          match params.side with
          | .ask => st.openOrders.lockBase lockAmount
          | .bid => st.openOrders.lockQuote lockAmount
        match lockres with
        | (locked, oo1) =>
          if ¬ locked then .error .insufficientFunds
          else
            match oo1.findFreeSlot with
            | none => .error .tooManyOrders
            | some slotIndex =>
              match st.market.nextSeqNum with
              | (none, _) => .error .arithmeticOverflow
              | (some seqNum, market1) =>
                let orderId := mkOrderId params.side params.price seqNum
                if params.orderType.isPostOnly
                    && checkWouldCross st.bids st.asks params.side params.price then
                  .error .postOnlyWouldCross
                else
                  let oo2 :=
                    (oo1.addOrder slotIndex orderId params.clientOrderId params.side).2
                  let leaf : LeafNode :=
                    ⟨slotIndex, params.orderType.toTimeInForce, orderId, st.ooKey,
                      params.quantity, params.clientOrderId⟩
                  let bookData :=
                    match params.side with
                    | .bid => st.bids
                    | .ask => st.asks
                  match insertOrder bookData leaf with
                  | .error e => .error e
                  | .ok newData =>
                    .ok { st with
                      market := market1
                      openOrders := oo2
                      bids := (match params.side with | .bid => newData | .ask => st.bids)
                      asks := (match params.side with | .ask => newData | .bid => st.asks) }

/-- `CancelOrderParams`. -/
structure CancelOrderParams where
  orderId : Nat
  side : Side
deriving DecidableEq, Repr

/-- The accounts the cancel-order handler touches. -/
structure CancelState where
  market : Market
  openOrders : OpenOrders
  ooKey : Nat
  bids : List Nat
  asks : List Nat
  eventQueue : List Nat
deriving DecidableEq, Repr

/-- The cancel-order handler: validate, find the order, remove it from the
book, release the locked funds, clear the slot, then push the Out event —
propagating `push_out_event`'s error with `?`, so a full queue aborts. -/
def cancelOrderHandler (signer : Nat) (params : CancelOrderParams) (st : CancelState) :
    Except MErr CancelState :=
  if params.orderId = 0 then .error .invalidClientOrderId
  else if ¬ st.market.status.allowsCancellations then .error .marketClosed
  else if ¬ st.openOrders.isAuthorized signer then .error .unauthorized
  else
    match st.openOrders.findOrder params.orderId with
    | none => .error .orderNotFound
    | some slotIndex =>
      match st.openOrders.getOrder slotIndex with
      | none => .error .orderNotFound
      | some orderSlot =>
        let bookData :=
          match params.side with
          | .bid => st.bids
          | .ask => st.asks
        match removeOrderFromBook bookData params.orderId params.side with
        | .error e => .error e
        | .ok ((quantity, price), bookData2) =>
          match cancelReleaseAmounts params.side quantity price
              st.market.baseLotSize st.market.quoteLotSize with
          | .error e => .error e
          | .ok (baseReleased, quoteReleased) =>
            let oo1 :=
              if baseReleased > 0 then (st.openOrders.releaseBase baseReleased).2
              else st.openOrders
            let oo2 :=
              if quoteReleased > 0 then (oo1.releaseQuote quoteReleased).2 else oo1
            let oo3 := (oo2.removeOrder slotIndex).2
            let outEvent : OutEv :=
              ⟨params.side, st.ooKey, params.orderId, orderSlot.clientOrderId,
                baseReleased, quoteReleased, .cancelled⟩
            match pushOutEvent st.eventQueue outEvent with
            | .error e => .error e
            | .ok eq2 =>
              .ok { st with
                openOrders := oo3
                bids := (match params.side with | .bid => bookData2 | .ask => st.bids)
                asks := (match params.side with | .ask => bookData2 | .bid => st.asks)
                eventQueue := eq2 }

/-- `CancelAllOrdersParams` (side filter and `u8` limit). -/
structure CancelAllParams where
  side : Option Side
  limit : Nat
deriving DecidableEq, Repr

/-- `CancelAllOrdersParams::matches_side`. -/
def CancelAllParams.matchesSide (p : CancelAllParams) (s : Side) : Bool :=
  match p.side with
  | none => true
  | some f => f == s

/-- Mutable state of the cancel-all loop. -/
structure CancelAllState where
  openOrders : OpenOrders
  ooKey : Nat
  bids : List Nat
  asks : List Nat
  eventQueue : List Nat
  cancelled : Nat
deriving DecidableEq, Repr

/-- Release amounts in cancel-all: the checked chain with `unwrap_or(0)`. -/
def cancelAllReleaseAmounts (side : Side) (quantity price bls qls : Nat) : Nat × Nat :=
  match side with
  | .ask => ((checkedMul64 quantity bls).getD 0, 0)
  | .bid =>
    (0,
      (((checkedMul64 quantity price).bind fun v => checkedMul64 v qls).bind
        fun v => checkedDiv v bls).getD 0)

/-- One iteration of the cancel-all loop for `slot_index`: skip when the
limit is reached, the slot is empty or filtered out; when the book removal
fails the slot is still cleared and the loop continues; otherwise release
funds, clear the slot, push the Out event ignoring its error, and count
the cancellation. -/
def cancelAllStep (market : Market) (params : CancelAllParams)
    (st : CancelAllState) (slotIndex : Nat) : CancelAllState :=
  if st.cancelled ≥ params.limit then st
  else
    match st.openOrders.getOrder slotIndex with
    | none => st
    | some slot =>
      if slot.isEmpty then st
      else if ¬ params.matchesSide slot.side then st
      else
        let bookData :=
          match slot.side with
          | .bid => st.bids
          | .ask => st.asks
        match removeOrderFromBook bookData slot.orderId slot.side with
        | .error _ => { st with openOrders := (st.openOrders.removeOrder slotIndex).2 }
        | .ok ((quantity, price), bookData2) =>
          match cancelAllReleaseAmounts slot.side quantity price
              market.baseLotSize market.quoteLotSize with
          | (baseReleased, quoteReleased) =>
            let oo1 :=
              if baseReleased > 0 then (st.openOrders.releaseBase baseReleased).2
              else st.openOrders
            let oo2 :=
              if quoteReleased > 0 then (oo1.releaseQuote quoteReleased).2 else oo1
            let oo3 := (oo2.removeOrder slotIndex).2
            let ev : OutEv :=
              ⟨slot.side, st.ooKey, slot.orderId, slot.clientOrderId,
                baseReleased, quoteReleased, .cancelled⟩
            let eq2 :=
              match pushOutEvent st.eventQueue ev with
              | .ok d => d
              | .error _ => st.eventQueue
            { openOrders := oo3
              ooKey := st.ooKey
              bids := (match slot.side with | .bid => bookData2 | .ask => st.bids)
              asks := (match slot.side with | .ask => bookData2 | .bid => st.asks)
              eventQueue := eq2
              cancelled := u8SatAdd st.cancelled 1 }

/-- The cancel-all handler: validations, then the slot loop; returns the
number of orders cancelled. -/
def cancelAllHandler (signer : Nat) (params : CancelAllParams) (market : Market)
    (st0 : CancelAllState) : Except MErr (Nat × CancelAllState) :=
  if params.limit = 0 then .error .invalidQuantity
  else if ¬ market.status.allowsCancellations then .error .marketClosed
  else if ¬ st0.openOrders.isAuthorized signer then .error .unauthorized
  else
    let final := (List.range MAX_ORDERS).foldl (cancelAllStep market params) st0
    .ok (final.cancelled, final)

/-! ### Concrete fixtures for closed-instance theorems -/

/-- An empty book-side buffer: 224 bytes, free list head and root both
`SENTINEL`, room for one 88-byte node. -/
def emptyBookBytes : List Nat :=
  writeBytes (writeBytes (List.replicate 224 0) 60 (natLE SENTINEL 4)) 64
    (natLE SENTINEL 4)

/-- A resting ask for 5 lots at price 100 (sequence number 1). -/
def askLeaf100 : LeafNode := ⟨0, .goodTilCancelled, OrderId.newAsk 100 1, 9, 5, 3⟩

/-- An ask book containing only `askLeaf100`. -/
def askBook1 : List Nat := (insertOrder emptyBookBytes askLeaf100).toOption.getD []

/-- A resting bid for 10 lots at price 100 (sequence number 1). -/
def bidLeaf100 : LeafNode := ⟨0, .goodTilCancelled, OrderId.newBid 100 1, 9, 10, 7⟩

/-- A bid book containing only `bidLeaf100`. -/
def bidBook1 : List Nat := (insertOrder emptyBookBytes bidLeaf100).toOption.getD []

/-- A full one-slot event queue: 288 bytes (capacity 1) with `count = 1`. -/
def fullQueueBytes : List Nat :=
  writeBytes (List.replicate 288 0) 52 (natLE 1 4)

/-- 128 empty order slots. -/
def emptyOrders128 : List OrderSlot := List.replicate 128 OrderSlot.cleared

/-- A unit-lot active market with tick 1 and minimum size 1. -/
def unitMarket : Market := ⟨.active, 1, 1, 1, 1, 0⟩

/-- A fresh user with 2000 quote atoms free, facing a resting ask 5@100:
the state for the FOK and PostOnly crossing scenarios. -/
def crossPlaceState : PlaceState :=
  ⟨unitMarket, ⟨1, 0, 0, 0, 0, 2000, 0, emptyOrders128⟩, 9, emptyBookBytes, askBook1⟩

/-- Order slots holding a single resting bid 10@100 (seq 1). -/
def bidSlotOrders : List OrderSlot :=
  ⟨OrderId.newBid 100 1, 7, .bid⟩ :: List.replicate 127 OrderSlot.cleared

/-- Cancel-order state: the bid 10@100 rests in the book, 1000 quote locked,
and the one-slot event queue is already full. -/
def cancelState1 : CancelState :=
  ⟨⟨.active, 1, 1, 1, 1, 5⟩, ⟨1, 0, 0, 1000, 0, 0, 1, bidSlotOrders⟩, 9,
    bidBook1, emptyBookBytes, fullQueueBytes⟩

/-- The book after removing the resting bid from `bidBook1`. -/
def bidBook1Removed : List Nat :=
  match removeOrderFromBook bidBook1 (OrderId.newBid 100 1) Side.bid with
  | .ok r => r.2
  | .error _ => []

/-- Cancel-all state whose occupied slot 0 names an order id that is absent
from the (empty) bid book. -/
def ghostCancelAllState : CancelAllState :=
  ⟨⟨1, 0, 0, 1000, 0, 0, 1, bidSlotOrders⟩, 9, emptyBookBytes, emptyBookBytes,
    fullQueueBytes, 0⟩

/-! ### Supporting lemmas -/

theorem key_lor_eq (a b : Nat) (hb : b < 2 ^ 64) : (a <<< 64) ||| b = a * 2 ^ 64 + b := by
  rw [Nat.shiftLeft_eq, Nat.mul_comm, ← Nat.mul_add_lt_is_or hb]

theorem OrderId.newBid_eq (p s : Nat) (hs : s < 2 ^ 64) :
    OrderId.newBid p s = u64Not p * 2 ^ 64 + s :=
  key_lor_eq _ _ hs

theorem OrderId.newAsk_eq (p s : Nat) (hs : s < 2 ^ 64) :
    OrderId.newAsk p s = p * 2 ^ 64 + s :=
  key_lor_eq _ _ hs

theorem key_split_div (a s : Nat) (hs : s < 2 ^ 64) :
    (a * 2 ^ 64 + s) >>> 64 = a := by
  rw [Nat.shiftRight_eq_div_pow, Nat.mul_comm a, Nat.mul_add_div (by positivity),
    Nat.div_eq_of_lt hs, Nat.add_zero]

theorem key_split_mod (a s : Nat) (hs : s < 2 ^ 64) :
    (a * 2 ^ 64 + s) % 2 ^ 64 = s := by
  omega

theorem key_mono (a1 a2 s1 s2 : Nat) (h : a1 < a2) (hs1 : s1 < 2 ^ 64) :
    a1 * 2 ^ 64 + s1 < a2 * 2 ^ 64 + s2 := by
  have h2 : (a1 + 1) * 2 ^ 64 ≤ a2 * 2 ^ 64 := Nat.mul_le_mul_right _ h
  have h3 : a1 * 2 ^ 64 + s1 < (a1 + 1) * 2 ^ 64 := by
    have : (a1 + 1) * 2 ^ 64 = a1 * 2 ^ 64 + 2 ^ 64 := by ring
    omega
  omega

theorem u64Not_lt (p : Nat) : u64Not p < 2 ^ 64 := by
  unfold u64Not; omega

theorem u64Not_u64Not (p : Nat) (hp : p < 2 ^ 64) : u64Not (u64Not p) = p := by
  unfold u64Not; omega

theorem u64Not_ne_self (p : Nat) : u64Not p ≠ p := by
  unfold u64Not; omega

theorem OrderId.price_newBid (p s : Nat) (hp : p < 2 ^ 64) (hs : s < 2 ^ 64) :
    OrderId.price (OrderId.newBid p s) true = p := by
  simp only [OrderId.price, OrderId.newBid_eq p s hs, if_pos]
  rw [key_split_div _ _ hs, Nat.mod_eq_of_lt (u64Not_lt p), u64Not_u64Not p hp]

theorem OrderId.price_newAsk (p s : Nat) (hp : p < 2 ^ 64) (hs : s < 2 ^ 64) :
    OrderId.price (OrderId.newAsk p s) false = p := by
  simp only [OrderId.price, OrderId.newAsk_eq p s hs, if_neg, Bool.false_eq_true,
    not_false_eq_true]
  rw [key_split_div _ _ hs, Nat.mod_eq_of_lt hp]

theorem OrderId.seqNum_newBid (p s : Nat) (hs : s < 2 ^ 64) :
    OrderId.seqNum (OrderId.newBid p s) = s := by
  simp only [OrderId.seqNum, OrderId.newBid_eq p s hs]
  exact key_split_mod _ _ hs

theorem OrderId.seqNum_newAsk (p s : Nat) (hs : s < 2 ^ 64) :
    OrderId.seqNum (OrderId.newAsk p s) = s := by
  simp only [OrderId.seqNum, OrderId.newAsk_eq p s hs]
  exact key_split_mod _ _ hs

/-- C6: the OrderId codec round-trips price and sequence number for both
sides, a strictly better price (higher for bids, lower for asks) yields a
strictly lower 128-bit key, and at equal price an earlier sequence number
yields a strictly lower key. -/
theorem order_id_codec_roundtrip_order (p s p1 s1 p2 s2 : Nat)
    (hp : p < 2 ^ 64) (hs : s < 2 ^ 64) (hp1 : p1 < 2 ^ 64) (hs1 : s1 < 2 ^ 64)
    (hp2 : p2 < 2 ^ 64) (hs2 : s2 < 2 ^ 64) :
    (OrderId.price (OrderId.newBid p s) true = p ∧
     OrderId.price (OrderId.newAsk p s) false = p ∧
     OrderId.seqNum (OrderId.newBid p s) = s ∧
     OrderId.seqNum (OrderId.newAsk p s) = s) ∧
    (p2 < p1 → OrderId.newBid p1 s1 < OrderId.newBid p2 s2) ∧
    (p1 < p2 → OrderId.newAsk p1 s1 < OrderId.newAsk p2 s2) ∧
    (s1 < s2 →
      OrderId.newBid p1 s1 < OrderId.newBid p1 s2 ∧
      OrderId.newAsk p1 s1 < OrderId.newAsk p1 s2) := by
  refine ⟨⟨OrderId.price_newBid p s hp hs, OrderId.price_newAsk p s hp hs,
    OrderId.seqNum_newBid p s hs, OrderId.seqNum_newAsk p s hs⟩, ?_, ?_, ?_⟩
  · intro h
    rw [OrderId.newBid_eq p1 s1 hs1, OrderId.newBid_eq p2 s2 hs2]
    exact key_mono _ _ _ _ (by unfold u64Not; omega) hs1
  · intro h
    rw [OrderId.newAsk_eq p1 s1 hs1, OrderId.newAsk_eq p2 s2 hs2]
    exact key_mono _ _ _ _ h hs1
  · intro h
    constructor
    · rw [OrderId.newBid_eq p1 s1 hs1, OrderId.newBid_eq p1 s2 hs2]
      omega
    · rw [OrderId.newAsk_eq p1 s1 hs1, OrderId.newAsk_eq p1 s2 hs2]
      omega

/-- Witness for C6 at concrete prices and sequence numbers. -/
theorem order_id_codec_roundtrip_order_witness :
    (3 : Nat) < 2 ^ 64 ∧ OrderId.price (OrderId.newBid 3 5) true = 3 :=
  ⟨by norm_num,
    ((order_id_codec_roundtrip_order 3 5 2 1 1 4 (by norm_num) (by norm_num)
      (by norm_num) (by norm_num) (by norm_num) (by norm_num)).1).1⟩

/-- C5: for an order cancelled with the same side, price and remaining
quantity as at placement, the cancel-order handler releases exactly the
amount place-order locked, to the atom (base for asks, quote for bids). -/
theorem cancel_release_equals_lock (side : Side) (p q s bls qls L : Nat)
    (hp : p < 2 ^ 64) (hs : s < 2 ^ 64)
    (hL : PlaceOrderParams.calculateLockAmount ⟨side, p, q, .limit, 0⟩ bls qls = .ok L) :
    cancelReleaseAmounts side q (OrderId.price (mkOrderId side p s) side.isBid) bls qls
      = .ok (match side with | .ask => (L, 0) | .bid => (0, L)) := by
  cases side
  case bid =>
    simp only [mkOrderId, Side.isBid, OrderId.price_newBid p s hp hs]
    simp only [PlaceOrderParams.calculateLockAmount] at hL
    simp only [cancelReleaseAmounts]
    cases h1 : checkedMul64 q p with
    | none => simp only [h1] at hL; exact Except.noConfusion hL
    | some n1 =>
      simp only [h1] at hL ⊢
      cases h2 : checkedMul64 n1 qls with
      | none => simp only [h2] at hL; exact Except.noConfusion hL
      | some n2 =>
        simp only [h2] at hL ⊢
        cases h3 : checkedDiv n2 bls with
        | none => simp only [h3] at hL; exact Except.noConfusion hL
        | some v =>
          simp only [h3] at hL ⊢
          simp only [Except.ok.injEq] at hL
          simp [hL]
  case ask =>
    simp only [PlaceOrderParams.calculateLockAmount] at hL
    simp only [cancelReleaseAmounts]
    cases h1 : checkedMul64 q bls with
    | none => simp only [h1] at hL; exact Except.noConfusion hL
    | some v =>
      simp only [h1] at hL ⊢
      simp only [Except.ok.injEq] at hL
      simp [hL]

/-- Witness for C5: a bid for 10 lots at price 100 with unit lot sizes
locks 1000 quote atoms and cancellation releases exactly 1000. -/
theorem cancel_release_equals_lock_witness :
    (100 : Nat) < 2 ^ 64 ∧
    PlaceOrderParams.calculateLockAmount ⟨Side.bid, 100, 10, .limit, 0⟩ 1 1
      = .ok 1000 ∧
    cancelReleaseAmounts Side.bid 10
      (OrderId.price (mkOrderId Side.bid 100 1) Side.bid.isBid) 1 1
      = .ok (0, 1000) :=
  ⟨by norm_num, by rfl,
    cancel_release_equals_lock Side.bid 100 10 1 1 1 1000 (by norm_num) (by norm_num)
      (by rfl)⟩

theorem qset_getD_eq {α : Type} (l : List α) (i : Nat) (a d : α) (h : i < l.length) :
    (l.set i a).getD i d = a := by
  induction l generalizing i with
  | nil => simp at h
  | cons x xs ih =>
    cases i with
    | zero => simp
    | succ n =>
      simp only [List.set, List.getD_cons_succ]
      exact ih n (by simpa using h)

theorem qset_getD_ne {α : Type} (l : List α) (i j : Nat) (a d : α) (h : i ≠ j) :
    (l.set i a).getD j d = l.getD j d := by
  induction l generalizing i j with
  | nil => simp
  | cons x xs ih =>
    cases i with
    | zero =>
      cases j with
      | zero => exact absurd rfl h
      | succ m => simp
    | succ n =>
      cases j with
      | zero => simp
      | succ m =>
        simp only [List.set, List.getD_cons_succ]
        exact ih n m (by omega)

theorem mod_shift_cancel (head i j cap : Nat) (hi : i < cap) (hj : j < cap)
    (h : (head + i) % cap = (head + j) % cap) : i = j := by
  have h2 : i ≡ j [MOD cap] := Nat.ModEq.add_left_cancel' head h
  have h3 : i % cap = j % cap := h2
  rw [Nat.mod_eq_of_lt hi, Nat.mod_eq_of_lt hj] at h3
  exact h3

theorem eqPush_not_full (q : EventQueueState) (e : QEvent)
    (hlt : q.count < q.events.length) (hcap : q.events.length < 2 ^ 32) :
    eqPush q e =
      (some (u64SatAdd q.seqNum 1),
        { q with
          events := q.events.set ((q.head + q.count) % q.events.length) e
          count := q.count + 1
          seqNum := u64SatAdd q.seqNum 1 }) := by
  have hfull : ¬ q.count ≥ q.events.length := by omega
  have hc1 : u32SatAdd q.count 1 = q.count + 1 := by unfold u32SatAdd; omega
  simp only [eqPush, if_neg hfull, hc1]

theorem livePush (q : EventQueueState) (e : QEvent) (hwf : eqWF q)
    (hlt : q.count < q.events.length) :
    liveEvents (eqPush q e).2 = liveEvents q ++ [e] := by
  obtain ⟨hhead, hcount, hcap, hseq64⟩ := hwf
  have hpos : 0 < q.events.length := by omega
  rw [eqPush_not_full q e hlt hcap]
  unfold liveEvents
  simp only [List.length_set, List.range_succ, List.map_append, List.map_cons,
    List.map_nil]
  congr 1
  · apply List.map_congr_left
    intro i hi
    have hi2 : i < q.count := List.mem_range.mp hi
    apply qset_getD_ne
    intro heq
    have := mod_shift_cancel q.head q.count i q.events.length hlt (by omega) heq
    omega
  · have hmod : (q.head + q.count) % q.events.length < q.events.length :=
      Nat.mod_lt _ hpos
    rw [qset_getD_eq _ _ _ _ hmod]

theorem eqPop_nonempty (q : EventQueueState) (hne : q.count ≠ 0)
    (hcap : q.events.length < 2 ^ 32) (hpos : 0 < q.events.length) :
    eqPop q =
      (some (q.events.getD q.head QEvent.empty),
        { q with
          events := q.events.set q.head QEvent.empty
          head := (q.head + 1) % q.events.length
          count := q.count - 1 }) := by
  have h1 : ((q.head + 1) % q.events.length) % 2 ^ 32 = (q.head + 1) % q.events.length :=
    Nat.mod_eq_of_lt (lt_of_lt_of_le (Nat.mod_lt _ hpos) (le_of_lt hcap))
  simp only [eqPop, if_neg hne, h1]

theorem livePop (q : EventQueueState) (hwf : eqWF q) (hne : q.count ≠ 0) :
    liveEvents (eqPop q).2 = (liveEvents q).tail := by
  obtain ⟨hhead, hcount, hcap, hseq64⟩ := hwf
  have hpos : 0 < q.events.length := by omega
  rw [eqPop_nonempty q hne hcap hpos]
  unfold liveEvents
  obtain ⟨k, hk⟩ : ∃ k, q.count = k + 1 := ⟨q.count - 1, by omega⟩
  rw [hk]
  simp only [List.length_set, Nat.add_sub_cancel, List.range_succ_eq_map,
    List.map_cons, List.map_map, List.tail_cons]
  apply List.map_congr_left
  intro i hi
  have hik : i < k := List.mem_range.mp hi
  have harith : ((q.head + 1) % q.events.length + i) % q.events.length
      = (q.head + (i + 1)) % q.events.length := by
    rw [Nat.mod_add_mod]
    ring_nf
  simp only [Function.comp_apply]
  rw [harith]
  have hne2 : q.head ≠ (q.head + (i + 1)) % q.events.length := by
    intro heq
    have h0 : (q.head + 0) % q.events.length = q.head := by
      simpa using Nat.mod_eq_of_lt hhead
    nth_rewrite 1 [← h0] at heq
    have := mod_shift_cancel q.head 0 (i + 1) q.events.length hpos (by omega) heq
    omega
  rw [qset_getD_ne _ _ _ _ _ hne2]

/-- C4: the event queue is a FIFO ring buffer: push stores at slot
`(head + count) mod cap`, increments `count`, assigns the incremented
`seq_num`, and returns `none` leaving the queue unchanged when
`count = cap`; pop returns the head event, zeroes the head slot, advances
`head` modulo `cap` and decrements `count`; `seq_num` never decreases,
including across pops; and the live window behaves as a FIFO list queue
(push appends, pop removes the oldest), so pops return events in exactly
the order they were pushed. -/
theorem event_queue_ring_fifo (q : EventQueueState) (e : QEvent) (hwf : eqWF q) :
    (q.count ≥ q.events.length → eqPush q e = (none, q)) ∧
    (q.count < q.events.length →
      (eqPush q e).2.events.getD ((q.head + q.count) % q.events.length) QEvent.empty
        = e ∧
      (eqPush q e).2.count = q.count + 1 ∧
      (eqPush q e).2.head = q.head ∧
      (eqPush q e).1 = some ((eqPush q e).2.seqNum) ∧
      (eqPush q e).2.seqNum = u64SatAdd q.seqNum 1 ∧
      (q.seqNum < 2 ^ 64 - 1 → (eqPush q e).2.seqNum = q.seqNum + 1) ∧
      liveEvents (eqPush q e).2 = liveEvents q ++ [e]) ∧
    (q.count ≠ 0 →
      (eqPop q).1 = some (q.events.getD q.head QEvent.empty) ∧
      (eqPop q).2.events.getD q.head QEvent.empty = QEvent.empty ∧
      (eqPop q).2.head = (q.head + 1) % q.events.length ∧
      (eqPop q).2.count = q.count - 1 ∧
      (eqPop q).2.seqNum = q.seqNum ∧
      liveEvents (eqPop q).2 = (liveEvents q).tail) ∧
    ((eqPush q e).2.seqNum ≥ q.seqNum ∧ (eqPop q).2.seqNum ≥ q.seqNum) ∧
    (eqWF (eqPush q e).2 ∧ eqWF (eqPop q).2) := by
  obtain ⟨hhead, hcount, hcap, hseq64⟩ := hwf
  have hpos0 : q.count ≠ 0 → 0 < q.events.length := by omega
  refine ⟨?_, ?_, ?_, ?_, ?_⟩
  · intro hfull
    simp only [eqPush, if_pos hfull]
  · intro hlt
    rw [eqPush_not_full q e hlt hcap]
    have hmod : (q.head + q.count) % q.events.length < q.events.length :=
      Nat.mod_lt _ (by omega)
    refine ⟨qset_getD_eq _ _ _ _ hmod, rfl, rfl, rfl, rfl, ?_, ?_⟩
    · intro hseq
      simp only [u64SatAdd]
      omega
    · rw [← eqPush_not_full q e hlt hcap]
      exact livePush q e ⟨hhead, hcount, hcap, hseq64⟩ hlt
  · intro hne
    rw [eqPop_nonempty q hne hcap (hpos0 hne)]
    refine ⟨rfl, qset_getD_eq _ _ _ _ hhead, rfl, rfl, rfl, ?_⟩
    rw [← eqPop_nonempty q hne hcap (hpos0 hne)]
    exact livePop q ⟨hhead, hcount, hcap, hseq64⟩ hne
  · constructor
    · by_cases hlt : q.count < q.events.length
      · rw [eqPush_not_full q e hlt hcap]
        simp only [u64SatAdd]
        omega
      · simp only [eqPush, if_pos (by omega : q.count ≥ q.events.length)]
        exact le_refl _
    · by_cases hne : q.count = 0
      · simp only [eqPop, if_pos hne]
        exact le_refl _
      · rw [eqPop_nonempty q hne hcap (hpos0 hne)]
  · constructor
    · by_cases hlt : q.count < q.events.length
      · rw [eqPush_not_full q e hlt hcap]
        refine ⟨by simpa using hhead, by simp; omega, by simpa using hcap,
          by simp [u64SatAdd]⟩
      · simp only [eqPush, if_pos (by omega : q.count ≥ q.events.length)]
        exact ⟨hhead, hcount, hcap, hseq64⟩
    · by_cases hne : q.count = 0
      · simp only [eqPop, if_pos hne]
        exact ⟨hhead, hcount, hcap, hseq64⟩
      · rw [eqPop_nonempty q hne hcap (hpos0 hne)]
        refine ⟨by simp; exact Nat.mod_lt _ (hpos0 hne), by simp; omega,
          by simpa using hcap, by simpa using hseq64⟩

/-- Witness for C4 on a concrete two-slot queue. -/
theorem event_queue_ring_fifo_witness :
    eqWF ⟨0, 0, 0, [QEvent.empty, QEvent.empty]⟩ ∧
    (eqPush ⟨0, 0, 0, [QEvent.empty, QEvent.empty]⟩ QEvent.empty).2.count = 0 + 1 := by
  have hwf : eqWF ⟨0, 0, 0, [QEvent.empty, QEvent.empty]⟩ := by
    unfold eqWF
    refine ⟨by norm_num, by norm_num, by norm_num, by norm_num⟩
  exact ⟨hwf,
    ((event_queue_ring_fifo ⟨0, 0, 0, [QEvent.empty, QEvent.empty]⟩ QEvent.empty
      hwf).2.1 (by norm_num)).2.1⟩

theorem insertLevelEntry_key_mem (m : List (Nat × PriceLevel)) (o : ParsedOrder) :
    ∀ x ∈ insertLevelEntry m o, x.1 = o.price ∨ x.1 ∈ m.map Prod.fst := by
  induction m with
  | nil =>
    intro x hx
    simp only [insertLevelEntry, List.mem_singleton] at hx
    subst hx
    exact Or.inl rfl
  | cons hd rest ih =>
    obtain ⟨k, l⟩ := hd
    intro x hx
    by_cases h1 : o.price < k
    · simp only [insertLevelEntry, if_pos h1] at hx
      rcases List.mem_cons.mp hx with h | h
      · subst h; exact Or.inl rfl
      · right
        rcases List.mem_cons.mp h with h2 | h2
        · subst h2; simp
        · simp only [List.map_cons, List.mem_cons]
          exact Or.inr (List.mem_map_of_mem Prod.fst h2)
    · by_cases h2 : o.price = k
      · simp only [insertLevelEntry, if_neg h1, if_pos h2] at hx
        rcases List.mem_cons.mp hx with h | h
        · subst h; exact Or.inl h2.symm
        · right
          simp only [List.map_cons, List.mem_cons]
          exact Or.inr (List.mem_map_of_mem Prod.fst h)
      · simp only [insertLevelEntry, if_neg h1, if_neg h2] at hx
        rcases List.mem_cons.mp hx with h | h
        · subst h; right; simp
        · rcases ih x h with h3 | h3
          · exact Or.inl h3
          · right
            simp only [List.map_cons, List.mem_cons]
            exact Or.inr h3

theorem insertLevelEntry_pairwise (m : List (Nat × PriceLevel)) (o : ParsedOrder)
    (h : m.Pairwise (fun a b => a.1 < b.1)) :
    (insertLevelEntry m o).Pairwise (fun a b => a.1 < b.1) := by
  induction m with
  | nil => simp [insertLevelEntry]
  | cons hd rest ih =>
    obtain ⟨k, l⟩ := hd
    rw [List.pairwise_cons] at h
    obtain ⟨hk, hrest⟩ := h
    by_cases h1 : o.price < k
    · simp only [insertLevelEntry, if_pos h1]
      refine List.Pairwise.cons ?_ (List.Pairwise.cons hk hrest)
      intro y hy
      rcases List.mem_cons.mp hy with h2 | h2
      · subst h2; exact h1
      · exact lt_trans h1 (hk y h2)
    · by_cases h2 : o.price = k
      · simp only [insertLevelEntry, if_neg h1, if_pos h2]
        exact List.Pairwise.cons hk hrest
      · simp only [insertLevelEntry, if_neg h1, if_neg h2]
        have hgt : k < o.price := by omega
        refine List.Pairwise.cons ?_ (ih hrest)
        intro y hy
        rcases insertLevelEntry_key_mem rest o y hy with h3 | h3
        · rw [h3]; exact hgt
        · obtain ⟨z, hz, hz2⟩ := List.mem_map.mp h3
          have := hk z hz
          omega

theorem buildLevels_pairwise_aux (orders : List ParsedOrder)
    (m : List (Nat × PriceLevel)) (h : m.Pairwise (fun a b => a.1 < b.1)) :
    (orders.foldl insertLevelEntry m).Pairwise (fun a b => a.1 < b.1) := by
  induction orders generalizing m with
  | nil => simpa using h
  | cons o rest ih =>
    simp only [List.foldl_cons]
    exact ih _ (insertLevelEntry_pairwise m o h)

theorem buildLevels_pairwise (orders : List ParsedOrder) :
    (buildLevels orders).Pairwise (fun a b => a.1 < b.1) :=
  buildLevels_pairwise_aux orders [] (by simp)

theorem lookupLevel_self (m : List (Nat × PriceLevel))
    (hm : m.Pairwise (fun a b => a.1 < b.1)) :
    ∀ x ∈ m, lookupLevel m x.1 = some x.2 := by
  induction m with
  | nil => intro x hx; simp at hx
  | cons hd rest ih =>
    obtain ⟨k, l⟩ := hd
    rw [List.pairwise_cons] at hm
    obtain ⟨hk, hrest⟩ := hm
    intro x hx
    rcases List.mem_cons.mp hx with h | h
    · subst h
      simp [lookupLevel]
    · have hlt := hk x h
      simp only [lookupLevel]
      rw [if_neg (by omega)]
      exact ih hrest x h

theorem containsKeyLevel_self (m : List (Nat × PriceLevel)) :
    ∀ x ∈ m, containsKeyLevel m x.1 = true := by
  induction m with
  | nil => intro x hx; simp at hx
  | cons hd rest ih =>
    obtain ⟨k, l⟩ := hd
    intro x hx
    simp only [containsKeyLevel, lookupLevel]
    split
    · simp
    · rcases List.mem_cons.mp hx with h | h
      · subst h; simp_all
      · exact ih x h

theorem diffOldLevels_nil (side : Side) (new old : List (Nat × PriceLevel))
    (h : ∀ x ∈ old, lookupLevel new x.1 = some x.2) :
    diffOldLevels side new old = [] := by
  induction old with
  | nil => rfl
  | cons hd rest ih =>
    obtain ⟨p, ol⟩ := hd
    have hhd := h (p, ol) (by simp)
    simp only [diffOldLevels, hhd]
    rw [if_neg (by simp)]
    simp only [List.nil_append]
    exact ih (fun x hx => h x (by simp [hx]))

theorem diffNewLevels_nil (side : Side) (old new : List (Nat × PriceLevel))
    (h : ∀ x ∈ new, containsKeyLevel old x.1 = true) :
    diffNewLevels side old new = [] := by
  induction new with
  | nil => rfl
  | cons hd rest ih =>
    obtain ⟨p, nl⟩ := hd
    have hhd := h (p, nl) (by simp)
    simp only [diffNewLevels, hhd, if_true, List.nil_append]
    exact ih (fun x hx => h x (by simp [hx]))

/-- C7 (amended): applying the same replacement order set to the same side
twice yields an empty change list from the second apply and leaves both
sides' price levels unchanged; however the second apply still sets
`last_slot` and increments `seq`, so the full book state is not unchanged. -/
theorem apply_orders_idempotent_levels (b : FullOrderBook) (side : Side)
    (orders : List ParsedOrder) (slot slot2 : Nat) :
    (applyOrders (applyOrders b side orders slot).2 side orders slot2).1 = [] ∧
    (applyOrders (applyOrders b side orders slot).2 side orders slot2).2.bids
      = (applyOrders b side orders slot).2.bids ∧
    (applyOrders (applyOrders b side orders slot).2 side orders slot2).2.asks
      = (applyOrders b side orders slot).2.asks ∧
    (applyOrders (applyOrders b side orders slot).2 side orders slot2).2.lastSlot
      = slot2 ∧
    (applyOrders (applyOrders b side orders slot).2 side orders slot2).2.seq
      = u64SatAdd (applyOrders b side orders slot).2.seq 1 := by
  have hpw := buildLevels_pairwise orders
  have h1 : diffOldLevels side (buildLevels orders) (buildLevels orders) = [] :=
    diffOldLevels_nil side _ _ (fun x hx => lookupLevel_self _ hpw x hx)
  have h2 : diffNewLevels side (buildLevels orders) (buildLevels orders) = [] :=
    diffNewLevels_nil side _ _ (fun x hx => containsKeyLevel_self _ x hx)
  cases side <;> simp [applyOrders, h1, h2]

/-- C7 counterexample: re-applying the same order set gives an empty delta
but a changed book state — `seq` increments on every apply — refuting the
claim that the second apply leaves the state unchanged. -/
theorem apply_orders_second_apply_changes_state_cex :
    (applyOrders (applyOrders ⟨[], [], [], 0, 0⟩ Side.bid
        [⟨0, [], 100, 5, 0⟩] 7).2 Side.bid [⟨0, [], 100, 5, 0⟩] 7).1 = [] ∧
    (applyOrders (applyOrders ⟨[], [], [], 0, 0⟩ Side.bid
        [⟨0, [], 100, 5, 0⟩] 7).2 Side.bid [⟨0, [], 100, 5, 0⟩] 7).2
      ≠ (applyOrders ⟨[], [], [], 0, 0⟩ Side.bid [⟨0, [], 100, 5, 0⟩] 7).2 := by
  constructor
  · decide
  · decide

/-- C8 counterexample: with `base_free = 1`, `quote_free = 0` and a withdraw
of one base and one quote atom, the handler debits `base_free` on the base
leg and then fails the quote leg with `InsufficientFunds`, so it neither
succeeds nor leaves both balances unchanged. -/
theorem withdraw_error_mutates_base_free_cex :
    (withdrawHandlerRaw ⟨1, 1⟩ ⟨1, 0⟩).1 = some MErr.insufficientFunds ∧
    (withdrawHandlerRaw ⟨1, 1⟩ ⟨1, 0⟩).2.baseFree = 0 ∧
    (⟨1, 0⟩ : WState).baseFree = 1 := by
  refine ⟨by decide, by decide, rfl⟩

/-- C8 (amended): with the runtime's revert-on-error (the instruction-level
semantics, modelled from the spec) a failing withdraw leaves both balances
unchanged; the handler function itself, on error, always leaves
`quote_free` unchanged but may have already debited `base_free` by
`base_amount` when the base leg committed before the quote leg failed. -/
theorem withdraw_atomicity_amended (p : WithdrawParams) (st : WState) :
    (∀ e st2, withdrawInstructionAtomic p st = (some e, st2) → st2 = st) ∧
    (∀ e st2, withdrawHandlerRaw p st = (some e, st2) →
      st2.quoteFree = st.quoteFree ∧
      (st2.baseFree = st.baseFree ∨ st2.baseFree = st.baseFree - p.baseAmount)) := by
  constructor
  · intro e st2 h
    unfold withdrawInstructionAtomic at h
    cases hr : withdrawHandlerRaw p st with
    | mk r s =>
      rw [hr] at h
      cases r with
      | some e2 => simp only [Prod.mk.injEq] at h; exact h.2.symm
      | none => simp at h
  · intro e st2 h
    by_cases hv : p.baseAmount = 0 ∧ p.quoteAmount = 0
    · simp only [withdrawHandlerRaw, if_pos hv, Prod.mk.injEq] at h
      rw [← h.2]
      exact ⟨rfl, Or.inl rfl⟩
    · by_cases hb : p.baseAmount > 0
      · by_cases hbf : st.baseFree < p.baseAmount
        · simp only [withdrawHandlerRaw, if_neg hv, if_pos hb, if_pos hbf,
            Prod.mk.injEq] at h
          rw [← h.2]
          exact ⟨rfl, Or.inl rfl⟩
        · have hsub : checkedSub st.baseFree p.baseAmount
              = some (st.baseFree - p.baseAmount) := by
            unfold checkedSub
            rw [if_pos (by omega)]
          simp only [withdrawHandlerRaw, if_neg hv, if_pos hb, if_neg hbf, hsub] at h
          by_cases hq : p.quoteAmount > 0
          · by_cases hqf : st.quoteFree < p.quoteAmount
            · simp only [if_pos hq, if_pos hqf, Prod.mk.injEq] at h
              rw [← h.2]
              exact ⟨rfl, Or.inr rfl⟩
            · have hsub2 : checkedSub st.quoteFree p.quoteAmount
                  = some (st.quoteFree - p.quoteAmount) := by
                unfold checkedSub
                rw [if_pos (by omega)]
              simp only [if_pos hq, if_neg hqf, hsub2, Prod.mk.injEq] at h
              exact absurd h.1 (by simp)
          · simp only [if_neg hq, Prod.mk.injEq] at h
            exact absurd h.1 (by simp)
      · have hb0 : p.baseAmount = 0 := by omega
        simp only [withdrawHandlerRaw, if_neg hv, if_neg hb] at h
        by_cases hq : p.quoteAmount > 0
        · by_cases hqf : st.quoteFree < p.quoteAmount
          · simp only [if_pos hq, if_pos hqf, Prod.mk.injEq] at h
            rw [← h.2]
            exact ⟨rfl, Or.inl rfl⟩
          · have hsub2 : checkedSub st.quoteFree p.quoteAmount
                = some (st.quoteFree - p.quoteAmount) := by
              unfold checkedSub
              rw [if_pos (by omega)]
            simp only [if_pos hq, if_neg hqf, hsub2, Prod.mk.injEq] at h
            exact absurd h.1 (by simp)
        · simp only [if_neg hq, Prod.mk.injEq] at h
          exact absurd h.1 (by simp)

/-- Witness for C8 at the concrete failing input. -/
theorem withdraw_atomicity_amended_witness :
    withdrawHandlerRaw ⟨1, 1⟩ ⟨1, 0⟩ = (some MErr.insufficientFunds, ⟨0, 0⟩) ∧
    ((⟨0, 0⟩ : WState).quoteFree = (⟨1, 0⟩ : WState).quoteFree ∧
     ((⟨0, 0⟩ : WState).baseFree = (⟨1, 0⟩ : WState).baseFree ∨
      (⟨0, 0⟩ : WState).baseFree = (⟨1, 0⟩ : WState).baseFree - 1)) :=
  ⟨by decide,
    (withdraw_atomicity_amended ⟨1, 1⟩ ⟨1, 0⟩).2 MErr.insufficientFunds ⟨0, 0⟩
      (by decide)⟩

theorem natLE_length (n k : Nat) : (natLE n k).length = k := by
  induction k generalizing n with
  | zero => rfl
  | succ k ih => simp [natLE, ih]

theorem leNat_natLE (n k : Nat) : leNat (natLE n k) = n % 256 ^ k := by
  induction k generalizing n with
  | zero => simp [natLE, leNat, Nat.mod_one]
  | succ k ih =>
    have ih2 := ih (n / 256)
    simp only [natLE, leNat, List.foldr_cons] at *
    rw [ih2, show (256 : Nat) ^ (k + 1) = 256 * 256 ^ k from by ring, Nat.mod_mul]

theorem readBytes_exact (pre mid post : List Nat) (off len : Nat)
    (h1 : pre.length = off) (h2 : mid.length = len) :
    readBytes (pre ++ (mid ++ post)) off len = mid := by
  unfold readBytes
  rw [List.drop_left' h1, List.take_left' h2]

theorem leafNodeBytes_length (leaf : LeafNode) : (leafNodeBytes leaf).length = 88 := by
  simp [leafNodeBytes, natLE_length]

theorem parseLeafNode_leafNodeBytes (leaf : LeafNode) :
    parseLeafNode (leafNodeBytes leaf) = some
      ⟨leaf.key % 2 ^ 128, natLE leaf.owner 32,
        ((leaf.key % 2 ^ 128) >>> 64) % 2 ^ 64, leaf.quantity % 2 ^ 64,
        leaf.clientOrderId % 2 ^ 64⟩ := by
  have h88 := leafNodeBytes_length leaf
  have hkey : readU128 (leafNodeBytes leaf) 8 = leaf.key % 2 ^ 128 := by
    unfold readU128 leafNodeBytes
    simp only [List.append_assoc]
    rw [readBytes_exact [2, leaf.ownerSlot, tifToNat leaf.timeInForce, 0, 0, 0, 0, 0]
        (natLE leaf.key 16) _ 8 16 (by rfl) (natLE_length _ _), leNat_natLE]
    norm_num
  have howner : readBytes (leafNodeBytes leaf) 24 32 = natLE leaf.owner 32 := by
    unfold leafNodeBytes
    simp only [List.append_assoc]
    rw [← List.append_assoc]
    exact readBytes_exact _ (natLE leaf.owner 32) _ 24 32 (by simp [natLE_length])
      (natLE_length _ _)
  have hqty : readU64 (leafNodeBytes leaf) 56 = leaf.quantity % 2 ^ 64 := by
    unfold readU64 leafNodeBytes
    simp only [List.append_assoc]
    rw [← List.append_assoc, ← List.append_assoc]
    rw [readBytes_exact _ (natLE leaf.quantity 8) _ 56 8 (by simp [natLE_length])
      (natLE_length _ _), leNat_natLE]
    norm_num
  have hcoid : readU64 (leafNodeBytes leaf) 64 = leaf.clientOrderId % 2 ^ 64 := by
    unfold readU64 leafNodeBytes
    simp only [List.append_assoc]
    rw [← List.append_assoc, ← List.append_assoc, ← List.append_assoc]
    rw [readBytes_exact _ (natLE leaf.clientOrderId 8) _ 64 8 (by simp [natLE_length])
      (natLE_length _ _), leNat_natLE]
    norm_num
  unfold parseLeafNode
  rw [if_neg (by omega)]
  rw [if_neg (by simp [leafNodeBytes])]
  simp only [hkey, howner, hqty, hcoid]

/-- C9: every leaf the indexer parser accepts gets `price` equal to the raw
upper 64 bits of the 128-bit order id regardless of side, and since bid keys
store the bitwise complement of the price, a bid leaf parses to the
complemented price `!p`, which is never the order's actual price `p`. -/
theorem parse_leaf_price_raw_upper :
    (∀ data o, parseLeafNode data = some o →
      o.price = (o.orderId >>> 64) % 2 ^ 64) ∧
    (∀ (leaf : LeafNode) (p s : Nat), p < 2 ^ 64 → s < 2 ^ 64 →
      leaf.key = OrderId.newBid p s →
      ∃ o, parseLeafNode (leafNodeBytes leaf) = some o ∧
        o.price = u64Not p ∧ o.price ≠ p) := by
  constructor
  · intro data o h
    unfold parseLeafNode at h
    split at h
    · exact Option.noConfusion h
    · split at h
      · exact Option.noConfusion h
      · simp only [Option.some.injEq] at h
        rw [← h]
  · intro leaf p s hp hs hkey
    have hlt : leaf.key < 2 ^ 128 := by
      rw [hkey, OrderId.newBid_eq p s hs]
      have := u64Not_lt p
      nlinarith [pow_pos (show (0:ℕ) < 2 by norm_num) 64]
    have hmod : leaf.key % 2 ^ 128 = leaf.key := Nat.mod_eq_of_lt hlt
    have hshift : (leaf.key >>> 64) % 2 ^ 64 = u64Not p := by
      rw [hkey, OrderId.newBid_eq p s hs, key_split_div _ _ hs,
        Nat.mod_eq_of_lt (u64Not_lt p)]
    refine ⟨_, parseLeafNode_leafNodeBytes leaf, ?_, ?_⟩
    · simp only [hmod, hshift]
    · simp only [hmod, hshift]
      exact u64Not_ne_self p

/-- Witness for C9 on a concrete bid leaf at price 100, seq 1. -/
theorem parse_leaf_price_raw_upper_witness :
    (100 : Nat) < 2 ^ 64 ∧
    ∃ o, parseLeafNode (leafNodeBytes
        ⟨0, .goodTilCancelled, OrderId.newBid 100 1, 9, 10, 7⟩) = some o ∧
      o.price = u64Not 100 ∧ o.price ≠ 100 :=
  ⟨by norm_num,
    parse_leaf_price_raw_upper.2 ⟨0, .goodTilCancelled, OrderId.newBid 100 1, 9, 10, 7⟩
      100 1 (by norm_num) (by norm_num) rfl⟩

theorem getBestPrice_none (data : List Nat) (b : Bool) : getBestPrice data b = none := by
  unfold getBestPrice
  dsimp only
  split
  · rfl
  · split
    · rfl
    · split
      · rfl
      · rfl

theorem checkWouldCross_false (bids asks : List Nat) (side : Side) (price : Nat) :
    checkWouldCross bids asks side price = false := by
  cases side <;> simp [checkWouldCross, getBestPrice_none]

theorem validate_error_cases (p : PlaceOrderParams) (ts ms : Nat) (e : MErr)
    (h : p.validate ts ms = .error e) :
    e = .invalidPrice ∨ e = .invalidTickSize ∨ e = .invalidQuantity ∨ e = .orderTooSmall := by
  unfold PlaceOrderParams.validate at h
  split at h
  · simp only [Except.error.injEq] at h
    exact Or.inl h.symm
  · split at h
    · simp only [Except.error.injEq] at h
      exact Or.inr (Or.inl h.symm)
    · split at h
      · simp only [Except.error.injEq] at h
        exact Or.inr (Or.inr (Or.inl h.symm))
      · split at h
        · simp only [Except.error.injEq] at h
          exact Or.inr (Or.inr (Or.inr h.symm))
        · exact Except.noConfusion h

theorem calculateLockAmount_error (p : PlaceOrderParams) (bls qls : Nat) (e : MErr)
    (h : p.calculateLockAmount bls qls = .error e) : e = .arithmeticOverflow := by
  unfold PlaceOrderParams.calculateLockAmount at h
  split at h
  · split at h
    · exact Except.noConfusion h
    · simp only [Except.error.injEq] at h
      exact h.symm
  · split at h
    · simp only [Except.error.injEq] at h
      exact h.symm
    · split at h
      · simp only [Except.error.injEq] at h
        exact h.symm
      · split at h
        · simp only [Except.error.injEq] at h
          exact h.symm
        · exact Except.noConfusion h

theorem insertOrder_error (data : List Nat) (leaf : LeafNode) (e : MErr)
    (h : insertOrder data leaf = .error e) : e = .invalidAccountData := by
  unfold insertOrder at h
  dsimp only at h
  repeat' split at h
  all_goals
    first
      | (simp only [Except.error.injEq] at h; exact h.symm)
      | exact Except.noConfusion h

theorem placeOrder_error_never_match (signer : Nat) (params : PlaceOrderParams)
    (st : PlaceState) (e : MErr)
    (h : placeOrderHandler signer params st = .error e) :
    e ≠ MErr.fillOrKillCannotFill ∧ e ≠ MErr.postOnlyWouldCross := by
  unfold placeOrderHandler at h
  dsimp only at h
  repeat' split at h
  all_goals try exact Except.noConfusion h
  all_goals try
    exact absurd (by assumption :
        (params.orderType.isPostOnly
          && checkWouldCross st.bids st.asks params.side params.price) = true)
      (by simp [checkWouldCross_false])
  all_goals simp only [Except.error.injEq] at h
  all_goals subst h
  all_goals try exact ⟨by decide, by decide⟩
  all_goals try
    (rcases validate_error_cases _ _ _ _ (by assumption) with rfl | rfl | rfl | rfl <;>
      exact ⟨by decide, by decide⟩)
  all_goals try
    (obtain rfl := calculateLockAmount_error _ _ _ _ (by assumption)
     exact ⟨by decide, by decide⟩)
  all_goals
    (obtain rfl := insertOrder_error _ _ _ (by assumption)
     exact ⟨by decide, by decide⟩)

set_option maxRecDepth 16000 in
/-- C1: the place-order handler has no taker phase: it never fails with
`FillOrKillCannotFill` for any input, and a FillOrKill bid 10@100 placed
against a book whose best ask is only 5@100 (so the full quantity cannot
match) succeeds, locks 1000 quote atoms, occupies an OpenOrders slot and
rests on the bid book as an ordinary order. -/
theorem fok_rests_never_fails :
    (∀ (signer : Nat) (params : PlaceOrderParams) (st : PlaceState),
      placeOrderHandler signer params st ≠ .error .fillOrKillCannotFill) ∧
    (placeOrderHandler 1 ⟨.bid, 100, 10, .fillOrKill, 7⟩ crossPlaceState).toOption.map
      (fun st => (readU32 st.bids 56, st.openOrders.quoteLocked,
        st.openOrders.numOrders, st.market.seqNum)) = some (1, 1000, 1, 1) := by
  constructor
  · intro signer params st h
    exact (placeOrder_error_never_match signer params st _ h).1 rfl
  · decide

/-- Witness for C1's universal part at the concrete FOK input. -/
theorem fok_rests_never_fails_witness :
    placeOrderHandler 1 ⟨.bid, 100, 10, .fillOrKill, 7⟩ crossPlaceState
      ≠ .error .fillOrKillCannotFill :=
  fok_rests_never_fails.1 1 ⟨.bid, 100, 10, .fillOrKill, 7⟩ crossPlaceState

set_option maxRecDepth 16000 in
/-- C2: `get_best_price` always returns `None` (unimplemented traversal), so
`check_would_cross` is constantly false, the handler never fails with
`PostOnlyWouldCross`, and a PostOnly bid at 100 against a best ask of 100
(a crossing placement) succeeds and rests on the book. -/
theorem post_only_cross_never_rejected :
    (∀ (bids asks : List Nat) (side : Side) (price : Nat),
      checkWouldCross bids asks side price = false) ∧
    (∀ (signer : Nat) (params : PlaceOrderParams) (st : PlaceState),
      placeOrderHandler signer params st ≠ .error .postOnlyWouldCross) ∧
    (placeOrderHandler 1 ⟨.bid, 100, 10, .postOnly, 8⟩ crossPlaceState).toOption.map
      (fun st => (readU32 st.bids 56, st.openOrders.quoteLocked,
        st.openOrders.numOrders, st.market.seqNum)) = some (1, 1000, 1, 1) := by
  refine ⟨checkWouldCross_false, ?_, ?_⟩
  · intro signer params st h
    exact (placeOrder_error_never_match signer params st _ h).2 rfl
  · decide

/-- Witness for C2's universal parts at the concrete PostOnly input. -/
theorem post_only_cross_never_rejected_witness :
    checkWouldCross crossPlaceState.bids crossPlaceState.asks Side.bid 100 = false ∧
    placeOrderHandler 1 ⟨.bid, 100, 10, .postOnly, 8⟩ crossPlaceState
      ≠ .error .postOnlyWouldCross :=
  ⟨post_only_cross_never_rejected.1 crossPlaceState.bids crossPlaceState.asks Side.bid 100,
    post_only_cross_never_rejected.2.1 1 ⟨.bid, 100, 10, .postOnly, 8⟩ crossPlaceState⟩

/-- C3 (amended): in the cancel-order handler a full event queue is fatal:
whenever validation, lookup, book removal and release all succeed but
`push_out_event` fails with `EventQueueFull`, the handler propagates the
error (`?`) and the instruction aborts, so the removal does not commit;
only cancel-all-orders elides the out-event. -/
theorem cancel_queue_full_aborts (signer : Nat) (params : CancelOrderParams)
    (st : CancelState) (i : Nat) (oslot : OrderSlot) (q p : Nat) (d2 : List Nat)
    (br qr : Nat)
    (h0 : ¬ params.orderId = 0)
    (h1 : st.market.status.allowsCancellations = true)
    (h2 : st.openOrders.isAuthorized signer = true)
    (h3 : st.openOrders.findOrder params.orderId = some i)
    (h4 : st.openOrders.getOrder i = some oslot)
    (h5 : removeOrderFromBook
        (match params.side with | .bid => st.bids | .ask => st.asks)
        params.orderId params.side = .ok ((q, p), d2))
    (h6 : cancelReleaseAmounts params.side q p st.market.baseLotSize
        st.market.quoteLotSize = .ok (br, qr))
    (h7 : pushOutEvent st.eventQueue
        ⟨params.side, st.ooKey, params.orderId, oslot.clientOrderId, br, qr,
          .cancelled⟩ = .error .eventQueueFull) :
    cancelOrderHandler signer params st = .error .eventQueueFull := by
  unfold cancelOrderHandler
  rw [if_neg h0, if_neg (by simp [h1]), if_neg (by simp [h2])]
  simp only [h3, h4, h5, h6, h7]

set_option maxRecDepth 16000 in
/-- C3 counterexample: a concrete cancel against a full one-slot queue: the
out-event push fails with `EventQueueFull` and the handler aborts with that
error instead of committing the removal and eliding the event. -/
theorem cancel_queue_full_aborts_cex :
    errOf (pushOutEvent cancelState1.eventQueue
        ⟨Side.bid, 9, OrderId.newBid 100 1, 7, 0, 1000, .cancelled⟩)
      = some MErr.eventQueueFull ∧
    errOf (cancelOrderHandler 1 ⟨OrderId.newBid 100 1, .bid⟩ cancelState1)
      = some MErr.eventQueueFull := by
  exact ⟨by decide, by decide⟩

set_option maxRecDepth 16000 in
/-- Witness for C3 at the concrete full-queue cancel state. -/
theorem cancel_queue_full_aborts_witness :
    cancelOrderHandler 1 ⟨OrderId.newBid 100 1, .bid⟩ cancelState1
      = .error .eventQueueFull :=
  cancel_queue_full_aborts 1 ⟨OrderId.newBid 100 1, .bid⟩ cancelState1 0
    ⟨OrderId.newBid 100 1, 7, .bid⟩ 10 100 bidBook1Removed 0 1000
    (by decide) (by rfl) (by decide) (by rfl) (by rfl) (by rfl) (by rfl) (by rfl)

/-- C10: in the cancel-all loop, an occupied slot matching the side filter
whose order id is not found in the book is cleared from OpenOrders while
releasing no funds, pushing no Out event, touching no book bytes, and not
counting toward the cancelled count. -/
theorem cancel_all_ghost_slot_cleared (market : Market) (params : CancelAllParams)
    (st : CancelAllState) (i : Nat) (slot : OrderSlot) (e : MErr)
    (hi : i < MAX_ORDERS)
    (hget : st.openOrders.getOrder i = some slot)
    (hne : slot.isEmpty = false)
    (hmatch : params.matchesSide slot.side = true)
    (hlim : st.cancelled < params.limit)
    (hrem : removeOrderFromBook
        (match slot.side with | .bid => st.bids | .ask => st.asks)
        slot.orderId slot.side = .error e) :
    (cancelAllStep market params st i).openOrders.orders
      = st.openOrders.orders.set i OrderSlot.cleared ∧
    (cancelAllStep market params st i).openOrders.numOrders
      = st.openOrders.numOrders - 1 ∧
    (cancelAllStep market params st i).openOrders.baseFree
      = st.openOrders.baseFree ∧
    (cancelAllStep market params st i).openOrders.baseLocked
      = st.openOrders.baseLocked ∧
    (cancelAllStep market params st i).openOrders.quoteFree
      = st.openOrders.quoteFree ∧
    (cancelAllStep market params st i).openOrders.quoteLocked
      = st.openOrders.quoteLocked ∧
    (cancelAllStep market params st i).eventQueue = st.eventQueue ∧
    (cancelAllStep market params st i).bids = st.bids ∧
    (cancelAllStep market params st i).asks = st.asks ∧
    (cancelAllStep market params st i).cancelled = st.cancelled := by
  have hstep : cancelAllStep market params st i
      = { st with openOrders := (st.openOrders.removeOrder i).2 } := by
    unfold cancelAllStep
    rw [if_neg (by omega)]
    simp only [hget, hne, hmatch, hrem, Bool.false_eq_true, if_false, not_true,
      Bool.not_eq_true]
  have hrm : (st.openOrders.removeOrder i).2
      = { st.openOrders with
          orders := st.openOrders.orders.set i OrderSlot.cleared
          numOrders := st.openOrders.numOrders - 1 } := by
    unfold OpenOrders.removeOrder
    rw [if_neg (by omega)]
    have hg : st.openOrders.orders.get? i = some slot := hget
    simp only [hg, hne, Bool.false_eq_true, if_false]
  rw [hstep, hrm]
  exact ⟨rfl, rfl, rfl, rfl, rfl, rfl, rfl, rfl, rfl, rfl⟩

set_option maxRecDepth 16000 in
/-- Witness for C10: slot 0 names a bid that is absent from the empty book;
the step clears it and cancels nothing. -/
theorem cancel_all_ghost_slot_cleared_witness :
    ghostCancelAllState.openOrders.getOrder 0
      = some ⟨OrderId.newBid 100 1, 7, .bid⟩ ∧
    (cancelAllStep ⟨.active, 1, 1, 1, 1, 5⟩ ⟨some .bid, 10⟩
        ghostCancelAllState 0).cancelled = ghostCancelAllState.cancelled :=
  ⟨by rfl,
    (cancel_all_ghost_slot_cleared ⟨.active, 1, 1, 1, 1, 5⟩ ⟨some .bid, 10⟩
      ghostCancelAllState 0 ⟨OrderId.newBid 100 1, 7, .bid⟩ MErr.orderNotFound
      (by norm_num [MAX_ORDERS]) (by rfl) (by decide) (by rfl) (by decide)
      (by rfl)).2.2.2.2.2.2.2.2.2⟩
